import Mathlib

/-!
Verification of the go-pocket command-line client (`cmd/pocket/main.go` and the
minimal variant of the same file) against its natural-language specification.

The Go code is shallowly embedded: pure transformations (title sanitization,
SHA-256 filename derivation, payload rendering) become Lean functions over
`String` / `List Nat`; the effectful command bodies (`commandSpotlight`,
`restoreAccessToken`, `saveJSONToFile`) become trace-producing functions
parameterized by oracles for their fallible external calls (filesystem,
template engine, external processes, remote RPC surface), so that every
observable event order and every error path of the source is represented.
-/

namespace GoPocket

/-- An item of the remote list, as used by `cmd/pocket/main.go`.  The fields
are the ones the verified code paths read: `SortId` (sorting in
`commandList`), `Title` (filename sanitization in `commandSpotlight`),
`URL` (hash-based filenames and descriptor payloads).  `itemId` stands for
the remaining identifying payload of `api.Item`. -/
structure Item where
  itemId : Nat
  sortId : Int
  title : String
  url : String
deriving DecidableEq

/-! ## Retrieval ordering (`commandList`, `bySortID`)

`commandList` copies `res.List` into a slice with a `range` loop and calls
`sort.Sort(bySortID(items))` where `Less(i, j) = s[i].SortId < s[j].SortId`.
Two sources of nondeterminism are modelled relationally:
the spec says the raw response "is not trusted to arrive in any particular
order" (the collection is iterated in unspecified order before sorting), and
Go's `sort.Sort` contract guarantees a `Less`-sorted permutation but is
explicitly *not* guaranteed to be stable.  -/

/-- The `Less` method of `bySortID` in `main.go`:
`s[i].SortId < s[j].SortId`. -/
def bySortIDLess (a b : Item) : Prop := a.sortId < b.sortId

instance : DecidablePred fun p : Item × Item => bySortIDLess p.1 p.2 :=
  fun p => inferInstanceAs (Decidable (p.1.sortId < p.2.sortId))

instance (a b : Item) : Decidable (bySortIDLess a b) :=
  inferInstanceAs (Decidable (a.sortId < b.sortId))

/-- Postcondition of Go's `sort.Sort` on `bySortID iter`: the output is a
permutation of the input that is pairwise non-descending for `Less`.
(Go documents `sort.Sort` as "not guaranteed to be stable", so no stability
clause is part of its contract.) -/
def sortSortPost (iter out : List Item) : Prop :=
  out.Perm iter ∧ out.Pairwise fun a b => ¬ bySortIDLess b a

/-- The item sequence `commandList` produces from a raw retrieve response:
the response collection is iterated in some unspecified order `iter`
(building `items`), then `sort.Sort(bySortID(items))` runs. -/
def commandListResult (response out : List Item) : Prop :=
  ∃ iter : List Item, iter.Perm response ∧ sortSortPost iter out

/-- Written from the spec's words, for comparison with `commandListResult`:
"for any two items `a, b` in the result, `a` precedes `b` iff
`a.sort_id <= b.sort_id` and `a` appeared no later than `b` in the raw
response when equal" — i.e. a stable sort by ascending `sort_id` with ties
broken by raw response position. -/
def stableBySortIdSpec (response out : List Item) : Prop :=
  ∀ i j : Fin out.length, i < j →
    (out.get i).sortId < (out.get j).sortId ∨
      ((out.get i).sortId = (out.get j).sortId ∧
        response.indexOf (out.get i) ≤ response.indexOf (out.get j))

def itemA : Item := ⟨1, 5, "A", "http://a"⟩
def itemB : Item := ⟨2, 5, "B", "http://b"⟩

/-- C1, counterexample: on the response `[itemA, itemB]` whose two items share
`sort_id = 5`, the execution producing `[itemB, itemA]` is admitted by
`commandList` (it is a `Less`-sorted permutation), yet it violates the
claimed stable tie-break by raw response order: `itemB` precedes `itemA`
although it appeared later in the raw response. -/
theorem C1_counterexample :
    commandListResult [itemA, itemB] [itemB, itemA] ∧
      ¬ stableBySortIdSpec [itemA, itemB] [itemB, itemA] := by
  constructor
  · exact ⟨[itemB, itemA], by decide, by decide, by decide⟩
  · intro h
    have := h ⟨0, by decide⟩ ⟨1, by decide⟩ (by decide)
    revert this
    decide

/-- C1, amended: every sequence `commandList` can return is a permutation of
the raw response that is sorted by ascending `sort_id` (for any two
positions `i < j`, `out[i].sort_id ≤ out[j].sort_id`); the order of items
with equal `sort_id` is not specified. -/
theorem C1_sorted_permutation (response out : List Item)
    (h : commandListResult response out) :
    out.Perm response ∧
      ∀ i j : Fin out.length, i < j → (out.get i).sortId ≤ (out.get j).sortId := by
  obtain ⟨iter, hperm, hperm2, hsorted⟩ := h
  refine ⟨hperm2.trans hperm, ?_⟩
  intro i j hij
  have := (List.pairwise_iff_get.mp hsorted) i j hij
  exact le_of_not_lt this

/-- Witness for `C1_sorted_permutation` at a concrete execution. -/
theorem C1_sorted_permutation_witness :
    ([itemB, itemA] : List Item).Perm [itemA, itemB] ∧
      ∀ i j : Fin ([itemB, itemA] : List Item).length, i < j →
        (([itemB, itemA] : List Item).get i).sortId ≤
          (([itemB, itemA] : List Item).get j).sortId :=
  C1_sorted_permutation [itemA, itemB] [itemB, itemA]
    ⟨[itemB, itemA], by decide, by decide, by decide⟩

/-! ## Title sanitization (`commandSpotlight` in `main.go`)

```
badChars      = `[^a-zA-Z0-9'". _-|()[]`
repeatSpace   = `\s+`            (replaced by " ")
leadingNoise  = `^[ \t_-]+`      (removed)
trailingNoise = `[ \t_-]+$`      (removed)
fname = trailingNoise(leadingNoise(repeatSpace(badChars(title))))
if len([]rune(fname)) > maxTitle { fname = string(runes[0:maxTitle]) }
```
Go's regexp (RE2) parses the `badChars` character class as follows: `_-|` is
the range U+005F..U+007C (the `-` is unescaped), and the first unescaped `]`
closes the class (the `[` just before it is a literal).  So the *kept* runes
are exactly `a-z A-Z 0-9 ' " . space ( ) [` together with U+005F..U+007C
(which adds the backtick U+0060 and the left brace U+007B and the pipe);
a literal hyphen and a right bracket are *not* kept. -/

def maxFilename : Nat := 127

def weblocExt : String := ".webloc"

/-- `maxTitle = maxFilename - len(".webloc")` (7 ASCII bytes) = 120. -/
def maxTitle : Nat := maxFilename - weblocExt.length

/-- The set of runes the `badChars` replacement keeps, i.e. the complement of
the RE2 class `[^a-zA-Z0-9'". _-|()[]` as actually parsed (see above). -/
def badCharsKeeps (c : Char) : Bool :=
  let n := c.toNat
  (97 ≤ n && n ≤ 122) || (65 ≤ n && n ≤ 90) || (48 ≤ n && n ≤ 57) ||
    n == 39 || n == 34 || n == 46 || n == 32 || (95 ≤ n && n ≤ 124) ||
    n == 40 || n == 41 || n == 91

/-- RE2's `\s`: `[\t\n\f\r ]`. -/
def goWhitespace (c : Char) : Bool :=
  c.toNat == 9 || c.toNat == 10 || c.toNat == 12 || c.toNat == 13 || c.toNat == 32

/-- The class `[ \t_-]` of the leading/trailing noise regexes. -/
def noiseChar (c : Char) : Bool :=
  c.toNat == 32 || c.toNat == 9 || c.toNat == 95 || c.toNat == 45

/-- `badChars.ReplaceAllString(fname, "")`: delete every rune the class
matches, i.e. keep exactly the runes of the complement. -/
def stripBadChars (l : List Char) : List Char := l.filter badCharsKeeps

/-- `repeatSpace.ReplaceAllString(fname, " ")`: replace every maximal run of
`\s` runes by a single space.  The flag records whether we are inside a
run whose replacement space has already been emitted. -/
def collapseSpaceAux : Bool → List Char → List Char
  | _, [] => []
  | inRun, c :: rest =>
    if goWhitespace c then
      if inRun then collapseSpaceAux true rest
      else ' ' :: collapseSpaceAux true rest
    else c :: collapseSpaceAux false rest

def collapseSpace (l : List Char) : List Char := collapseSpaceAux false l

/-- `leadingNoise.ReplaceAllString(fname, "")` for `^[ \t_-]+`. -/
def trimLeading (l : List Char) : List Char := l.dropWhile noiseChar

/-- `trailingNoise.ReplaceAllString(fname, "")` for `[ \t_-]+$`. -/
def trimTrailing (l : List Char) : List Char :=
  (l.reverse.dropWhile noiseChar).reverse

/-- The sanitized title before the length cut: strip, collapse, trim. -/
def trimmedTitle (s : String) : List Char :=
  trimTrailing (trimLeading (collapseSpace (stripBadChars s.data)))

/-- The full filename stem derivation of `commandSpotlight`: the regex
pipeline followed by the rune-count truncation
`if len(fnameRunes) > maxTitle`. -/
def sanitizeStem (s : String) : String :=
  let r := trimmedTitle s
  if r.length > maxTitle then String.mk (r.take maxTitle) else String.mk r

/-- Written from the spec's words, for comparison with `badCharsKeeps`: the
claimed allow-list "letters, digits, quotes, space, period, underscore,
hyphen, brackets, parentheses, and pipe". -/
def specAllowedChar (c : Char) : Bool :=
  let n := c.toNat
  (97 ≤ n && n ≤ 122) || (65 ≤ n && n ≤ 90) || (48 ≤ n && n ≤ 57) ||
    n == 39 || n == 34 || n == 32 || n == 46 || n == 95 || n == 45 ||
    n == 91 || n == 93 || n == 40 || n == 41 || n == 124

/-- The title `a-b` followed by U+0060 (backtick) and `c`. -/
def bugTitle : String :=
  String.mk [Char.ofNat 97, Char.ofNat 45, Char.ofNat 98, Char.ofNat 96, Char.ofNat 99]

/-- C2: the sanitizer evaluated at the failing input: on the title
a-b&#x60;c the code strips the allow-listed hyphen U+002D and keeps the
disallowed backtick U+0060, because the unescaped `-` and `]` in the
`badChars` class make `_-|` a range U+005F..U+007C and close the class
early.  (The trim regexes still try to remove `-` runs — dead code unless
hyphens were meant to survive the strip — so the spec's allow-list is the
evident intent and the regex a slip.) -/
theorem C2_allowlist_bug :
    sanitizeStem bugTitle =
        String.mk [Char.ofNat 97, Char.ofNat 98, Char.ofNat 96, Char.ofNat 99] ∧
      specAllowedChar (Char.ofNat 45) = true ∧
      specAllowedChar (Char.ofNat 96) = false ∧
      Char.ofNat 96 ∈ (sanitizeStem bugTitle).data ∧
      Char.ofNat 45 ∉ (sanitizeStem bugTitle).data := by
  decide

/-- A title whose trimmed form is 121 code points, one over the budget:
119 letters, a space, one more letter. -/
def longTitle : String := String.mk (List.replicate 119 'a' ++ [' ', 'b'])

theorem head_dropWhile_not (p : Char → Bool) (c : Char) :
    ∀ l : List Char, (l.dropWhile p).head? = some c → p c = false := by
  intro l
  induction l with
  | nil => intro h; simp [List.dropWhile] at h
  | cons x xs ih =>
    intro h
    by_cases hx : p x
    · exact ih (by simpa [List.dropWhile, hx] using h)
    · rw [List.dropWhile_cons_of_neg (by simpa using hx)] at h
      simp at h
      subst h
      simpa using hx

theorem getLast_trimTrailing_not_noise (l : List Char) (c : Char)
    (h : (trimTrailing l).getLast? = some c) : noiseChar c = false := by
  unfold trimTrailing at h
  rw [List.getLast?_reverse] at h
  exact head_dropWhile_not noiseChar c l.reverse h

/-- C10: truncation is the last step of the stem derivation.  (1) Whenever
the stripped-collapsed-trimmed form exceeds the `maxTitle` budget, the stem
is exactly its first `maxTitle` code points.  (2) An untruncated stem never
ends in a space, tab, underscore or hyphen (the trailing-noise trim ran
last).  (3) A truncated stem can end in a space: the concrete `longTitle`
exceeds the budget and its stem ends in U+0020. -/
theorem C10_truncate_after_trim :
    (∀ s : String, maxTitle < (trimmedTitle s).length →
        sanitizeStem s = String.mk ((trimmedTitle s).take maxTitle)) ∧
      (∀ (s : String) (c : Char), (trimmedTitle s).length ≤ maxTitle →
        (sanitizeStem s).data.getLast? = some c → noiseChar c = false) ∧
      (maxTitle < (trimmedTitle longTitle).length ∧
        (sanitizeStem longTitle).data.getLast? = some (Char.ofNat 32)) := by
  refine ⟨?_, ?_, ?_⟩
  · intro s h
    unfold sanitizeStem
    simp only [if_pos h]
  · intro s c hle h
    unfold sanitizeStem at h
    rw [if_neg (by omega)] at h
    exact getLast_trimTrailing_not_noise _ c h
  · constructor
    · decide
    · decide

/-- Witness for `C10_truncate_after_trim` at the concrete over-budget title. -/
theorem C10_truncate_after_trim_witness :
    sanitizeStem longTitle = String.mk ((trimmedTitle longTitle).take maxTitle) :=
  C10_truncate_after_trim.1 longTitle (by decide)

/-! ## SHA-256 (the `crypto/sha256` calls of `commandSpotlight`)

The minimal variant derives filenames with
`fmt.Sprintf("%x.webbookmark", h.Sum(nil))` where `h` is a `sha256.New()`
hash fed the item's URL bytes.  SHA-256 is embedded from FIPS 180-4 over
`Nat` with explicit reduction modulo `2 ^ 32`; bytes are `Nat` values. -/

def w32 (n : Nat) : Nat := n % 4294967296

/-- Right rotation of a 32-bit word given as a `Nat` below `2 ^ 32`. -/
def rotr (n x : Nat) : Nat := w32 (x / 2 ^ n + x % 2 ^ n * 2 ^ (32 - n))

def shr (n x : Nat) : Nat := x / 2 ^ n

def notW32 (x : Nat) : Nat := 4294967295 - w32 x

def chF (x y z : Nat) : Nat := (x &&& y) ^^^ (notW32 x &&& z)

def majF (x y z : Nat) : Nat := (x &&& y) ^^^ (x &&& z) ^^^ (y &&& z)

def bigS0 (x : Nat) : Nat := rotr 2 x ^^^ rotr 13 x ^^^ rotr 22 x

def bigS1 (x : Nat) : Nat := rotr 6 x ^^^ rotr 11 x ^^^ rotr 25 x

def smallS0 (x : Nat) : Nat := rotr 7 x ^^^ rotr 18 x ^^^ shr 3 x

def smallS1 (x : Nat) : Nat := rotr 17 x ^^^ rotr 19 x ^^^ shr 10 x

def sha256K : List Nat :=
  [1116352408, 1899447441, 3049323471, 3921009573, 961987163,
   1508970993, 2453635748, 2870763221, 3624381080, 310598401,
   607225278, 1426881987, 1925078388, 2162078206, 2614888103,
   3248222580, 3835390401, 4022224774, 264347078, 604807628,
   770255983, 1249150122, 1555081692, 1996064986, 2554220882,
   2821834349, 2952996808, 3210313671, 3336571891, 3584528711,
   113926993, 338241895, 666307205, 773529912, 1294757372,
   1396182291, 1695183700, 1986661051, 2177026350, 2456956037,
   2730485921, 2820302411, 3259730800, 3345764771, 3516065817,
   3600352804, 4094571909, 275423344, 430227734, 506948616,
   659060556, 883997877, 958139571, 1322822218, 1537002063,
   1747873779, 1955562222, 2024104815, 2227730452, 2361852424,
   2428436474, 2756734187, 3204031479, 3329325298]

structure Hash8 where
  a : Nat
  b : Nat
  c : Nat
  d : Nat
  e : Nat
  f : Nat
  g : Nat
  h : Nat
deriving DecidableEq

def sha256Init : Hash8 :=
  ⟨1779033703, 3144134277, 1013904242, 2773480762,
   1359893119, 2600822924, 528734635, 1541459225⟩

def sha256Round (st : Hash8) (k w : Nat) : Hash8 :=
  let t1 := w32 (st.h + bigS1 st.e + chF st.e st.f st.g + k + w)
  let t2 := w32 (bigS0 st.a + majF st.a st.b st.c)
  ⟨w32 (t1 + t2), st.a, st.b, st.c, w32 (st.d + t1), st.e, st.f, st.g⟩

/-- Extend a 16-word message schedule by `n` further words
`W_t = σ1 W_(t-2) + W_(t-7) + σ0 W_(t-15) + W_(t-16)`. -/
def extendSchedule : List Nat → Nat → List Nat
  | ws, 0 => ws
  | ws, n + 1 =>
    extendSchedule
      (ws ++ [w32 (smallS1 (ws.getD (ws.length - 2) 0) + ws.getD (ws.length - 7) 0 +
        smallS0 (ws.getD (ws.length - 15) 0) + ws.getD (ws.length - 16) 0)]) n

def compressBlock (H0 : Hash8) (block : List Nat) : Hash8 :=
  let ws := extendSchedule block 48
  let st := (sha256K.zip ws).foldl (fun st kw => sha256Round st kw.1 kw.2) H0
  ⟨w32 (H0.a + st.a), w32 (H0.b + st.b), w32 (H0.c + st.c), w32 (H0.d + st.d),
   w32 (H0.e + st.e), w32 (H0.f + st.f), w32 (H0.g + st.g), w32 (H0.h + st.h)⟩

/-- Big-endian 8-byte encoding of the message bit length. -/
def lenBytes64 (n : Nat) : List Nat :=
  [n / 2 ^ 56 % 256, n / 2 ^ 48 % 256, n / 2 ^ 40 % 256, n / 2 ^ 32 % 256,
   n / 2 ^ 24 % 256, n / 2 ^ 16 % 256, n / 2 ^ 8 % 256, n % 256]

/-- FIPS 180-4 padding: `0x80`, zeros to 56 mod 64, 8-byte bit length. -/
def padMessage (msg : List Nat) : List Nat :=
  msg ++ 128 :: (List.replicate ((119 - msg.length % 64) % 64) 0 ++
    lenBytes64 (8 * msg.length))

/-- Group bytes into big-endian 32-bit words. -/
def toWords : List Nat → List Nat
  | a :: b :: c :: d :: rest => (((a * 256 + b) * 256 + c) * 256 + d) :: toWords rest
  | _ => []

/-- Compress the padded message 16 words (one block) at a time. -/
def processWords (H0 : Hash8) : List Nat → Hash8
  | w0 :: w1 :: w2 :: w3 :: w4 :: w5 :: w6 :: w7 ::
      w8 :: w9 :: w10 :: w11 :: w12 :: w13 :: w14 :: w15 :: rest =>
    processWords
      (compressBlock H0 [w0, w1, w2, w3, w4, w5, w6, w7, w8, w9, w10, w11, w12, w13, w14, w15])
      rest
  | _ => H0

def wordBytes (w : Nat) : List Nat :=
  [w / 2 ^ 24 % 256, w / 2 ^ 16 % 256, w / 2 ^ 8 % 256, w % 256]

def digestBytes (H0 : Hash8) : List Nat :=
  wordBytes H0.a ++ wordBytes H0.b ++ wordBytes H0.c ++ wordBytes H0.d ++
    wordBytes H0.e ++ wordBytes H0.f ++ wordBytes H0.g ++ wordBytes H0.h

def sha256Bytes (msg : List Nat) : List Nat :=
  digestBytes (processWords sha256Init (toWords (padMessage msg)))

/-- UTF-8 encoding of one code point, as Go's `[]byte(string)` produces. -/
def utf8EncodeChar (n : Nat) : List Nat :=
  if n < 128 then [n]
  else if n < 2048 then [192 + n / 64, 128 + n % 64]
  else if n < 65536 then [224 + n / 4096, 128 + n / 64 % 64, 128 + n % 64]
  else [240 + n / 262144, 128 + n / 4096 % 64, 128 + n / 64 % 64, 128 + n % 64]

def utf8Bytes (s : String) : List Nat :=
  (s.data.map fun c => utf8EncodeChar c.toNat).flatten

/-- One lowercase hex digit, as Go's `%x` uses. -/
def nibbleHex (n : Nat) : Char :=
  if n < 10 then Char.ofNat (48 + n) else Char.ofNat (87 + n)

def byteHex (b : Nat) : List Char := [nibbleHex (b / 16), nibbleHex (b % 16)]

def bytesHex (l : List Nat) : String := String.mk (l.map byteHex).flatten

/-- `fmt.Sprintf("%x", sha256(url))`: the lowercase hex digest of the UTF-8
bytes of a string. -/
def hexDigest (s : String) : String := bytesHex (sha256Bytes (utf8Bytes s))

set_option maxRecDepth 100000 in
/-- FIPS 180-4 test vector, validating the embedding. -/
theorem sha256_abc_vector :
    hexDigest "abc" =
      "ba7816bf8f01cfea414140de5dae2223b00361a396177a9cb410ff61f20015ad" := by
  rfl

/-! ## Descriptor filenames and payloads -/

def webbookmarkExt : String := ".webbookmark"

/-- The minimal variant's filename:
`fmt.Sprintf("%x.webbookmark", h.Sum(nil))` for the SHA-256 of the URL. -/
def hashFileName (i : Item) : String := hexDigest i.url ++ webbookmarkExt

/-- Go `text/template`'s `html` function (`template.HTMLEscape`): escapes
`<`, `>`, `&`, the two quote characters, and a NUL byte. -/
def htmlEscapeChar (c : Char) : List Char :=
  if c.toNat == 60 then "&lt;".data
  else if c.toNat == 62 then "&gt;".data
  else if c.toNat == 38 then "&amp;".data
  else if c.toNat == 39 then "&#39;".data
  else if c.toNat == 34 then "&#34;".data
  else if c.toNat == 0 then [Char.ofNat 0xFFFD]
  else [c]

def htmlEscape (s : String) : String := String.mk (s.data.map htmlEscapeChar).flatten

/-- The plist text of `spotlightItemTemplate` in `main.go` around the
HTML-escaped URL. -/
def weblocPayload (i : Item) : String :=
  "<?xml version=\"1.0\" encoding=\"UTF-8\"?>\x0a<!DOCTYPE plist PUBLIC \"-//Apple//DTD PLIST 1.0//EN\" \"http://www.apple.com/DTDs/PropertyList-1.0.dtd\">\x0a<plist version=\"1.0\">\x0a<dict>\x0a    <key>URL</key>\x0a    <string>"
    ++ htmlEscape i.url ++ "</string>\x0a</dict>\x0a</plist>"

/-- The plist text of the minimal variant's `spotlightItemTemplate`, which
also embeds the HTML-escaped title under the `Name` key. -/
def webbookmarkPayload (i : Item) : String :=
  "<?xml version=\"1.0\" encoding=\"UTF-8\"?>\x0a<!DOCTYPE plist PUBLIC \"-//Apple//DTD PLIST 1.0//EN\" \"http://www.apple.com/DTDs/PropertyList-1.0.dtd\">\x0a<plist version=\"1.0\">\x0a<dict>\x0a    <key>Name</key>\x0a    <string>"
    ++ htmlEscape i.title ++ "</string>\x0a    <key>URL</key>\x0a    <string>"
    ++ htmlEscape i.url ++ "</string>\x0a</dict>\x0a</plist>"

/-! ## The export directory as an association list

`os.Create` then writing renders, per path, last-write-wins. -/

def writeFile (fs : List (String × String)) (p c : String) : List (String × String) :=
  if fs.any fun e => e.1 == p then fs.map fun e => if e.1 == p then (p, c) else e
  else fs ++ [(p, c)]

/-- The files present after the minimal variant's export loop writes each
item's descriptor under its hash-derived name into the freshly reset
directory (paths relative to the directory). -/
def exportHashFs (items : List Item) : List (String × String) :=
  items.foldl (fun fs i => writeFile fs (hashFileName i) (webbookmarkPayload i)) []

theorem writeFile_nil (p c : String) : writeFile [] p c = [(p, c)] := by
  simp [writeFile]

theorem writeFile_single_hit (p c c' : String) :
    writeFile [(p, c)] p c' = [(p, c')] := by
  simp [writeFile]

def itemU1 : Item := ⟨1, 1, "A", "http://u"⟩
def itemU2 : Item := ⟨2, 2, "B", "http://u"⟩

/-- C3, counterexample: the two distinct items `itemU1` and `itemU2` share
the URL `http://u`, so they derive the same hash filename, and exporting
`[itemU1, itemU2]` leaves one file in the directory, not one per input
item. -/
theorem C3_counterexample :
    itemU1 ≠ itemU2 ∧ hashFileName itemU1 = hashFileName itemU2 ∧
      (exportHashFs [itemU1, itemU2]).length = 1 := by
  refine ⟨by decide, rfl, ?_⟩
  have h2 : hashFileName itemU2 = hashFileName itemU1 := rfl
  simp only [exportHashFs, List.foldl_cons, List.foldl_nil, writeFile_nil, h2,
    writeFile_single_hit, List.length_cons, List.length_nil]

def isLowerHexChar (c : Char) : Bool :=
  (48 ≤ c.toNat && c.toNat ≤ 57) || (97 ≤ c.toNat && c.toNat ≤ 102)

theorem nibbleHex_lower : ∀ n : Fin 16, isLowerHexChar (nibbleHex n.val) = true := by
  decide

theorem byteHex_lower (b : Nat) (hb : b < 256) :
    ∀ c ∈ byteHex b, isLowerHexChar c = true := by
  intro c hc
  have h1 : b / 16 < 16 := by omega
  have h2 : b % 16 < 16 := Nat.mod_lt _ (by norm_num)
  simp only [byteHex, List.mem_cons, List.not_mem_nil, or_false] at hc
  rcases hc with hc | hc
  · subst hc; exact nibbleHex_lower ⟨b / 16, h1⟩
  · subst hc; exact nibbleHex_lower ⟨b % 16, h2⟩

theorem wordBytes_lt (w : Nat) : ∀ b ∈ wordBytes w, b < 256 := by
  intro b hb
  simp only [wordBytes, List.mem_cons, List.not_mem_nil, or_false] at hb
  rcases hb with h | h | h | h <;> (subst h; exact Nat.mod_lt _ (by norm_num))

theorem sha256Bytes_lt (m : List Nat) : ∀ b ∈ sha256Bytes m, b < 256 := by
  simp only [sha256Bytes, digestBytes, List.forall_mem_append]
  exact ⟨⟨⟨⟨⟨⟨⟨wordBytes_lt _, wordBytes_lt _⟩, wordBytes_lt _⟩, wordBytes_lt _⟩,
    wordBytes_lt _⟩, wordBytes_lt _⟩, wordBytes_lt _⟩, wordBytes_lt _⟩

theorem sha256Bytes_length (m : List Nat) : (sha256Bytes m).length = 32 := by
  simp [sha256Bytes, digestBytes, wordBytes]

theorem bytesHex_length (l : List Nat) : (bytesHex l).length = 2 * l.length := by
  unfold bytesHex
  show (String.mk (l.map byteHex).flatten).data.length = 2 * l.length
  induction l with
  | nil => rfl
  | cons b rest ih =>
    simp only [List.map_cons, List.flatten_cons, List.length_append, byteHex,
      List.length_cons, List.length_nil, List.length_map] at *
    omega

theorem mem_bytesHex_lower (l : List Nat) (hl : ∀ b ∈ l, b < 256) :
    ∀ c ∈ (bytesHex l).data, isLowerHexChar c = true := by
  intro c hc
  unfold bytesHex at hc
  simp only [String.mk, List.mem_flatten, List.mem_map] at hc
  obtain ⟨cs, ⟨b, hb, hcs⟩, hmem⟩ := hc
  subst hcs
  exact byteHex_lower b (hl b hb) c hmem

theorem string_append_right_cancel (a b c : String) (h : a ++ c = b ++ c) : a = b := by
  have hd : a.data ++ c.data = b.data ++ c.data := by
    have := congrArg String.data h
    simpa [String.data_append] using this
  exact String.ext (List.append_cancel_right hd)

/-- C3, amended: under the hash policy every filename is the lowercase hex
SHA-256 digest of the item's URL (64 lowercase hex characters) followed by
the fixed `.webbookmark` extension, and items whose URL digests differ map
to distinct filenames; items sharing a URL share one filename, so the
directory holds one descriptor per distinct URL digest rather than per
item. -/
theorem C3_hash_filenames (i j : Item) (h : hexDigest i.url ≠ hexDigest j.url) :
    hashFileName i = hexDigest i.url ++ webbookmarkExt ∧
      (hexDigest i.url).length = 64 ∧
      (∀ c ∈ (hexDigest i.url).data, isLowerHexChar c = true) ∧
      hashFileName i ≠ hashFileName j := by
  refine ⟨rfl, ?_, ?_, ?_⟩
  · unfold hexDigest
    rw [bytesHex_length, sha256Bytes_length]
  · exact mem_bytesHex_lower _ (sha256Bytes_lt _)
  · intro heq
    exact h (string_append_right_cancel _ _ _ heq)

set_option maxRecDepth 100000 in
/-- Witness for `C3_hash_filenames`: the two concrete URLs `http://a` and
`http://b` have different digests, hence different filenames. -/
theorem C3_hash_filenames_witness :
    hexDigest itemA.url ≠ hexDigest itemB.url ∧ hashFileName itemA ≠ hashFileName itemB :=
  ⟨by decide, (C3_hash_filenames itemA itemB (by decide)).2.2.2⟩

/-! ## The export pipeline (`commandSpotlight`)

Both variants run, after a successful retrieve:
`os.RemoveAll(dir)`, `os.MkdirAll(dir, 0700)`, then per item: `os.Create`,
template `Execute`, (enhanced variant: checked `Close`), `plutil -convert
binary1`, and finally one `mdimport dir`.  Every error path prints to stderr
and calls `os.Exit(1)`.  The pipeline is embedded as a trace of observable
events, parameterized by an oracle giving the outcome of each fallible
external call. -/

inductive PlutilRes where
  | ok : PlutilRes
  | fail (out : String) (msg : String) : PlutilRes
deriving DecidableEq

structure SpotOracle where
  removeAllErr : Option String
  mkdirAllErr : Option String
  createErr : Item → Option String
  executeErr : Item → Option String
  closeErr : Item → Option String
  plutil : Item → PlutilRes
  mdimport : PlutilRes

inductive Ev where
  | removeAll (dir : String) (ok : Bool)
  | mkdirAll (dir : String) (perm : Nat) (ok : Bool)
  | create (path : String) (ok : Bool)
  | writeFile (path : String) (content : String)
  | closeFile (path : String) (ok : Bool)
  | runPlutil (i : Item)
  | runMdimport (dir : String)
  | stderr (s : String)
  | exit (code : Nat)
deriving DecidableEq

/-- `fmt.Fprintln(os.Stderr, plutilOut)` for a `[]byte`: Go's `%v` renders a
byte slice as the bracketed, space-separated decimal values of its bytes. -/
def goByteSliceFmt (s : String) : String :=
  "[" ++ String.intercalate " " ((utf8Bytes s).map toString) ++ "]"

/-- `filepath.Join` for a clean directory path and a relative name. -/
def pathJoin (d f : String) : String := d ++ "/" ++ f

/-- `fmt.Sprintf("%s.webloc", fname)` for the sanitized stem. -/
def titleFileName (i : Item) : String := sanitizeStem i.title ++ weblocExt

def itemPathTitle (dir : String) (i : Item) : String := pathJoin dir (titleFileName i)

/-- One iteration of the enhanced variant's export loop: create the file,
render the template, close (checked), convert with plutil; on any error
print to stderr (for plutil: first the `%v`-rendered combined output, then
the error) and exit 1.  (In the template-error branch the `Close` result is
not checked.)  Returns the events and whether the loop continues. -/
def itemTraceTitle (dir : String) (o : SpotOracle) (i : Item) : List Ev × Bool :=
  let p := itemPathTitle dir i
  match o.createErr i with
  | some e => ([.create p false, .stderr e, .exit 1], false)
  | none =>
    match o.executeErr i with
    | some e => ([.create p true, .stderr e, .closeFile p true, .exit 1], false)
    | none =>
      match o.closeErr i with
      | some e =>
        ([.create p true, .writeFile p (weblocPayload i), .closeFile p false,
          .stderr e, .exit 1], false)
      | none =>
        match o.plutil i with
        | .fail out msg =>
          ([.create p true, .writeFile p (weblocPayload i), .closeFile p true,
            .runPlutil i, .stderr (goByteSliceFmt out), .stderr msg, .exit 1], false)
        | .ok =>
          ([.create p true, .writeFile p (weblocPayload i), .closeFile p true,
            .runPlutil i], true)

def runItemsTitle (dir : String) (o : SpotOracle) : List Item → List Ev × Bool
  | [] => ([], true)
  | i :: rest =>
    match itemTraceTitle dir o i with
    | (evs, false) => (evs, false)
    | (evs, true) =>
      let r := runItemsTitle dir o rest
      (evs ++ r.1, r.2)

/-- The full event trace of the enhanced `commandSpotlight` after a
successful retrieve: reset the directory (delete, recreate with mode 0700),
run the per-item loop, and if it completes run `mdimport` once (whose
failure also prints the `%v`-rendered output, the error, and exits 1). -/
def commandSpotlightTrace (dir : String) (o : SpotOracle) (items : List Item) : List Ev :=
  match o.removeAllErr with
  | some e => [.removeAll dir false, .stderr e, .exit 1]
  | none =>
    .removeAll dir true ::
      match o.mkdirAllErr with
      | some e => [.mkdirAll dir 0o700 false, .stderr e, .exit 1]
      | none =>
        .mkdirAll dir 0o700 true ::
          (let r := runItemsTitle dir o items
           r.1 ++
             if r.2 then
               match o.mdimport with
               | .ok => [.runMdimport dir]
               | .fail out msg =>
                 [.runMdimport dir, .stderr (goByteSliceFmt out), .stderr msg, .exit 1]
             else [])

/-- One iteration of the minimal variant's export loop: hash-derived name,
`Close` deferred to function exit (not evented), and on plutil failure the
combined output is *discarded* (`_, err = ...`); only the error value is
printed before exiting. -/
def itemTraceHash (dir : String) (o : SpotOracle) (i : Item) : List Ev × Bool :=
  let p := pathJoin dir (hashFileName i)
  match o.createErr i with
  | some e => ([.create p false, .stderr e, .exit 1], false)
  | none =>
    match o.executeErr i with
    | some e => ([.create p true, .stderr e, .exit 1], false)
    | none =>
      match o.plutil i with
      | .fail _ msg =>
        ([.create p true, .writeFile p (webbookmarkPayload i), .runPlutil i,
          .stderr msg, .exit 1], false)
      | .ok =>
        ([.create p true, .writeFile p (webbookmarkPayload i), .runPlutil i], true)

def runItemsHash (dir : String) (o : SpotOracle) : List Item → List Ev × Bool
  | [] => ([], true)
  | i :: rest =>
    match itemTraceHash dir o i with
    | (evs, false) => (evs, false)
    | (evs, true) =>
      let r := runItemsHash dir o rest
      (evs ++ r.1, r.2)

/-- The full event trace of the minimal `commandSpotlight` (its `mdimport`
failure branch likewise discards the combined output). -/
def commandSpotlightHashTrace (dir : String) (o : SpotOracle) (items : List Item) : List Ev :=
  match o.removeAllErr with
  | some e => [.removeAll dir false, .stderr e, .exit 1]
  | none =>
    .removeAll dir true ::
      match o.mkdirAllErr with
      | some e => [.mkdirAll dir 0o700 false, .stderr e, .exit 1]
      | none =>
        .mkdirAll dir 0o700 true ::
          (let r := runItemsHash dir o items
           r.1 ++
             if r.2 then
               match o.mdimport with
               | .ok => [.runMdimport dir]
               | .fail _ msg => [.runMdimport dir, .stderr msg, .exit 1]
             else [])

def allOkOracle : SpotOracle :=
  { removeAllErr := none, mkdirAllErr := none, createErr := fun _ => none,
    executeErr := fun _ => none, closeErr := fun _ => none,
    plutil := fun _ => .ok, mdimport := .ok }

def plutilFailOracle : SpotOracle :=
  { allOkOracle with plutil := fun _ => .fail "boom" "exit status 1" }

/-- C6, counterexample: in the minimal variant, when plutil fails with
combined output `boom` and error `exit status 1`, the export does abort,
but the only string ever written to stderr is the error value: the combined
output `boom` is discarded, not surfaced. -/
theorem C6_counterexample :
    plutilFailOracle.plutil itemU1 = .fail "boom" "exit status 1" ∧
      (∀ s, Ev.stderr s ∈ commandSpotlightHashTrace "d" plutilFailOracle [itemU1] →
        s = "exit status 1") ∧
      Ev.stderr "boom" ∉ commandSpotlightHashTrace "d" plutilFailOracle [itemU1] := by
  refine ⟨rfl, ?_, ?_⟩
  · intro s hs
    simp [commandSpotlightHashTrace, runItemsHash, itemTraceHash, plutilFailOracle,
      allOkOracle] at hs
    exact hs
  · intro hs
    simp [commandSpotlightHashTrace, runItemsHash, itemTraceHash, plutilFailOracle,
      allOkOracle] at hs

/-- Whenever a `runPlutil` event for an item whose conversion fails appears
in a trace, it is immediately followed by exactly: the `%v`-rendered
combined output on stderr, the error on stderr, and exit 1 — and nothing
after (the export aborts). -/
def plutilFailureSurfaced (o : SpotOracle) : List Ev → Prop
  | [] => True
  | e :: rest =>
    match e with
    | .runPlutil i =>
      match o.plutil i with
      | .ok => plutilFailureSurfaced o rest
      | .fail out msg => rest = [.stderr (goByteSliceFmt out), .stderr msg, .exit 1]
    | _ => plutilFailureSurfaced o rest

/-- C6, amended (enhanced variant): a non-zero plutil exit is a hard
failure — stderr receives the `%v` byte-slice rendering of the combined
output, then the error, and the process exits 1 with no further item
processed. -/
theorem C6_plutil_failure_aborts (dir : String) (o : SpotOracle) (items : List Item) :
    plutilFailureSurfaced o (commandSpotlightTrace dir o items) := by
  unfold commandSpotlightTrace
  cases hrm : o.removeAllErr with
  | some e => simp [plutilFailureSurfaced]
  | none =>
    cases hmk : o.mkdirAllErr with
    | some e => simp [plutilFailureSurfaced]
    | none =>
      simp only [plutilFailureSurfaced]
      induction items with
      | nil =>
        cases hmd : o.mdimport <;> simp [runItemsTitle, plutilFailureSurfaced]
      | cons i rest ih =>
        unfold runItemsTitle itemTraceTitle
        cases hcr : o.createErr i with
        | some e => simp [plutilFailureSurfaced]
        | none =>
          cases hex : o.executeErr i with
          | some e => simp [plutilFailureSurfaced]
          | none =>
            cases hcl : o.closeErr i with
            | some e => simp [plutilFailureSurfaced]
            | none =>
              cases hpl : o.plutil i with
              | fail out msg => simp [plutilFailureSurfaced, hpl]
              | ok =>
                simp only [plutilFailureSurfaced, hpl, List.cons_append, List.append_assoc]
                exact ih

theorem write_split_mem (a b : Ev) (body pre post : List Ev) (p c : String)
    (h : a :: b :: body = pre ++ Ev.writeFile p c :: post)
    (ha : a ≠ Ev.writeFile p c) (hb : b ≠ Ev.writeFile p c) :
    a ∈ pre ∧ b ∈ pre := by
  match pre with
  | [] =>
    rw [List.nil_append] at h
    injection h with h1 _
    exact absurd h1 ha
  | [x] =>
    rw [List.cons_append, List.nil_append] at h
    injection h with _ h2
    injection h2 with h3 _
    exact absurd h3 hb
  | x :: y :: pre' =>
    rw [List.cons_append, List.cons_append] at h
    injection h with h1 h2
    injection h2 with h3 _
    subst h1
    subst h3
    exact ⟨List.mem_cons_self _ _, List.mem_cons_of_mem _ (List.mem_cons_self _ _)⟩

/-- C8: in every execution of either variant of the export, any written
descriptor is preceded in the trace by the successful recursive delete of
the target directory and its recreation with owner-only permissions
(mode 0700). -/
theorem C8_reset_before_writes (dir : String) (o : SpotOracle) (items : List Item)
    (pre post : List Ev) (p c : String) :
    (commandSpotlightTrace dir o items = pre ++ Ev.writeFile p c :: post →
      Ev.removeAll dir true ∈ pre ∧ Ev.mkdirAll dir 0o700 true ∈ pre) ∧
      (commandSpotlightHashTrace dir o items = pre ++ Ev.writeFile p c :: post →
        Ev.removeAll dir true ∈ pre ∧ Ev.mkdirAll dir 0o700 true ∈ pre) := by
  constructor
  · intro h
    have hmem : Ev.writeFile p c ∈ commandSpotlightTrace dir o items := by
      rw [h]; simp
    unfold commandSpotlightTrace at h hmem
    cases hrm : o.removeAllErr with
    | some e => rw [hrm] at hmem; simp at hmem
    | none =>
      rw [hrm] at h hmem
      cases hmk : o.mkdirAllErr with
      | some e => rw [hmk] at hmem; simp at hmem
      | none =>
        rw [hmk] at h
        exact write_split_mem _ _ _ pre post p c h (by simp) (by simp)
  · intro h
    have hmem : Ev.writeFile p c ∈ commandSpotlightHashTrace dir o items := by
      rw [h]; simp
    unfold commandSpotlightHashTrace at h hmem
    cases hrm : o.removeAllErr with
    | some e => rw [hrm] at hmem; simp at hmem
    | none =>
      rw [hrm] at h hmem
      cases hmk : o.mkdirAllErr with
      | some e => rw [hmk] at hmem; simp at hmem
      | none =>
        rw [hmk] at h
        exact write_split_mem _ _ _ pre post p c h (by simp) (by simp)

/-- Witness for `C8_reset_before_writes`: concrete all-success exports of one
item in each variant, split at the descriptor write. -/
theorem C8_reset_before_writes_witness :
    (Ev.removeAll "d" true ∈
        [Ev.removeAll "d" true, Ev.mkdirAll "d" 0o700 true,
          Ev.create (itemPathTitle "d" itemU1) true] ∧
      Ev.mkdirAll "d" 0o700 true ∈
        [Ev.removeAll "d" true, Ev.mkdirAll "d" 0o700 true,
          Ev.create (itemPathTitle "d" itemU1) true]) ∧
      (Ev.removeAll "d" true ∈
          [Ev.removeAll "d" true, Ev.mkdirAll "d" 0o700 true,
            Ev.create (pathJoin "d" (hashFileName itemU1)) true] ∧
        Ev.mkdirAll "d" 0o700 true ∈
          [Ev.removeAll "d" true, Ev.mkdirAll "d" 0o700 true,
            Ev.create (pathJoin "d" (hashFileName itemU1)) true]) :=
  ⟨(C8_reset_before_writes "d" allOkOracle [itemU1]
      [Ev.removeAll "d" true, Ev.mkdirAll "d" 0o700 true,
        Ev.create (itemPathTitle "d" itemU1) true]
      [Ev.closeFile (itemPathTitle "d" itemU1) true, Ev.runPlutil itemU1,
        Ev.runMdimport "d"]
      (itemPathTitle "d" itemU1) (weblocPayload itemU1)).1 rfl,
    (C8_reset_before_writes "d" allOkOracle [itemU1]
      [Ev.removeAll "d" true, Ev.mkdirAll "d" 0o700 true,
        Ev.create (pathJoin "d" (hashFileName itemU1)) true]
      [Ev.runPlutil itemU1, Ev.runMdimport "d"]
      (pathJoin "d" (hashFileName itemU1)) (webbookmarkPayload itemU1)).2 rfl⟩

/-- The directory contents determined by a trace: fold every `writeFile`
event into the association list, last write wins. -/
def finalFs (t : List Ev) : List (String × String) :=
  t.foldl (fun fs e => match e with | .writeFile p c => writeFile fs p c | _ => fs) []

/-- C9: items whose titles sanitize to the empty string are still exported;
their descriptor is the bare, dot-prefixed name `.webloc`, every such item
maps to the same path, and in one export the later item's payload
overwrites the earlier one's. -/
theorem C9_empty_stem_collision (dir : String) (i1 i2 : Item)
    (h1 : sanitizeStem i1.title = "") (h2 : sanitizeStem i2.title = "") :
    titleFileName i1 = ".webloc" ∧
      itemPathTitle dir i2 = itemPathTitle dir i1 ∧
      finalFs (commandSpotlightTrace dir allOkOracle [i1, i2]) =
        [(pathJoin dir ".webloc", weblocPayload i2)] := by
  have e1 : titleFileName i1 = ".webloc" := by
    unfold titleFileName
    rw [h1]
    decide
  have e2 : titleFileName i2 = ".webloc" := by
    unfold titleFileName
    rw [h2]
    decide
  refine ⟨e1, ?_, ?_⟩
  · unfold itemPathTitle
    rw [e1, e2]
  · simp only [commandSpotlightTrace, allOkOracle, runItemsTitle, itemTraceTitle,
      itemPathTitle, e1, e2, finalFs, List.foldl_cons, List.foldl_nil,
      List.cons_append, List.nil_append, List.append_nil]
    rw [writeFile_nil, writeFile_single_hit]
    simp

def qItem : Item := ⟨1, 1, "???", "http://a"⟩
def eItem : Item := ⟨2, 2, "", "http://b"⟩

/-- Witness for `C9_empty_stem_collision`: a title of three question marks
(all stripped) and the empty title. -/
theorem C9_empty_stem_collision_witness :
    titleFileName qItem = ".webloc" ∧
      itemPathTitle "d" eItem = itemPathTitle "d" qItem ∧
      finalFs (commandSpotlightTrace "d" allOkOracle [qItem, eItem]) =
        [(pathJoin "d" ".webloc", weblocPayload eItem)] :=
  C9_empty_stem_collision "d" qItem eItem (by decide) (by decide)

/-! ## The authorization flow (`restoreAccessToken` / `obtainAccessToken`)

The three RPC exchange calls (`auth.ObtainRequestToken`,
`auth.ObtainAccessToken`) and the two credential-file operations live in
the repository's `auth` package and the standard library; the spec treats
them as a black-box RPC surface, so their outcomes are oracle inputs and
only the orchestration of `main.go` is embedded. -/

structure Auth where
  accessToken : String
  username : String
deriving DecidableEq

structure AuthOracle where
  load : Option Auth
  requestToken : Option String
  accessToken : Option Auth
  saveErr : Option String

inductive AEv where
  | loadCred (ok : Bool)
  | serverStart
  | obtainRequestToken (ok : Bool)
  | printURL (tok : String)
  | waitCallback
  | obtainAccessToken (ok : Bool)
  | serverClose
  | saveCred (a : Auth)
deriving DecidableEq

/-- `obtainAccessToken` in `main.go`: start the one-shot callback server,
call `auth.ObtainRequestToken` (return the error on failure), print the
authorization URL, block on the channel until the callback fires, call
`auth.ObtainAccessToken`; the deferred `ts.Close()` runs on every return
path. -/
def obtainAccessTokenFlow (o : AuthOracle) : List AEv × Option Auth :=
  match o.requestToken with
  | none => ([.serverStart, .obtainRequestToken false, .serverClose], none)
  | some tok =>
    ([.serverStart, .obtainRequestToken true, .printURL tok, .waitCallback,
      .obtainAccessToken o.accessToken.isSome, .serverClose], o.accessToken)

/-- `restoreAccessToken` in `main.go`: return the persisted credential when
`loadJSONFromFile` succeeds; otherwise run `obtainAccessToken` and, only if
it succeeded, `saveJSONToFile` the result (its error propagates). -/
def restoreAccessToken (o : AuthOracle) : List AEv × Option Auth :=
  match o.load with
  | some a => ([.loadCred true], some a)
  | none =>
    let r := obtainAccessTokenFlow o
    match r.2 with
    | none => (.loadCred false :: r.1, none)
    | some a =>
      match o.saveErr with
      | some _ => (.loadCred false :: (r.1 ++ [.saveCred a]), none)
      | none => (.loadCred false :: (r.1 ++ [.saveCred a]), some a)

/-- `x` occurs before every occurrence of `y` in `l`. -/
def appearsBefore (x y : AEv) (l : List AEv) : Prop :=
  ∀ pre post, l = pre ++ y :: post → x ∈ pre

theorem appearsBefore_not_mem (x y : AEv) (l : List AEv) (hy : y ∉ l) :
    appearsBefore x y l := by
  intro pre post hp
  exact absurd (by rw [hp]; simp : y ∈ l) hy

theorem appearsBefore_head (x y : AEv) (l : List AEv) (hxy : x ≠ y) :
    appearsBefore x y (x :: l) := by
  intro pre post hp
  match pre with
  | [] =>
    rw [List.nil_append] at hp
    injection hp with h1 _
    exact absurd h1 hxy
  | b :: pre' =>
    rw [List.cons_append] at hp
    injection hp with h1 _
    exact h1 ▸ List.mem_cons_self _ _

theorem appearsBefore_cons (x y a : AEv) (l : List AEv) (hya : y ≠ a)
    (h : appearsBefore x y l) : appearsBefore x y (a :: l) := by
  intro pre post hp
  match pre with
  | [] =>
    rw [List.nil_append] at hp
    injection hp with h1 _
    exact absurd h1.symm hya
  | b :: pre' =>
    rw [List.cons_append] at hp
    injection hp with _ h2
    exact List.mem_cons_of_mem _ (h pre' post h2)

/-- C4: in every execution of the authorization flow,
`auth.ObtainAccessToken` is only ever invoked after
`auth.ObtainRequestToken` has returned successfully, and no credential is
persisted when either exchange call fails. -/
theorem C4_request_before_access (o : AuthOracle) :
    (∀ b, appearsBefore (AEv.obtainRequestToken true) (AEv.obtainAccessToken b)
        (restoreAccessToken o).1) ∧
      ((AEv.obtainRequestToken false ∈ (restoreAccessToken o).1 ∨
          AEv.obtainAccessToken false ∈ (restoreAccessToken o).1) →
        ∀ a, AEv.saveCred a ∉ (restoreAccessToken o).1) := by
  cases hload : o.load with
  | some a =>
    have ht : (restoreAccessToken o).1 = [AEv.loadCred true] := by
      simp [restoreAccessToken, hload]
    rw [ht]
    constructor
    · intro b
      exact appearsBefore_not_mem _ _ _ (by simp)
    · intro h
      simp at h
  | none =>
    cases hreq : o.requestToken with
    | none =>
      have ht : (restoreAccessToken o).1 =
          [AEv.loadCred false, AEv.serverStart, AEv.obtainRequestToken false,
            AEv.serverClose] := by
        simp [restoreAccessToken, obtainAccessTokenFlow, hload, hreq]
      rw [ht]
      constructor
      · intro b
        exact appearsBefore_not_mem _ _ _ (by simp)
      · intro _ a
        simp
    | some tok =>
      cases hacc : o.accessToken with
      | none =>
        have ht : (restoreAccessToken o).1 =
            [AEv.loadCred false, AEv.serverStart, AEv.obtainRequestToken true,
              AEv.printURL tok, AEv.waitCallback, AEv.obtainAccessToken false,
              AEv.serverClose] := by
          simp [restoreAccessToken, obtainAccessTokenFlow, hload, hreq, hacc]
        rw [ht]
        constructor
        · intro b
          apply appearsBefore_cons _ _ _ _ (by simp)
          apply appearsBefore_cons _ _ _ _ (by simp)
          exact appearsBefore_head _ _ _ (by simp)
        · intro _ a
          simp
      | some cred =>
        cases hsave : o.saveErr with
        | some e =>
          have ht : (restoreAccessToken o).1 =
              [AEv.loadCred false, AEv.serverStart, AEv.obtainRequestToken true,
                AEv.printURL tok, AEv.waitCallback, AEv.obtainAccessToken true,
                AEv.serverClose, AEv.saveCred cred] := by
            simp [restoreAccessToken, obtainAccessTokenFlow, hload, hreq, hacc, hsave]
          rw [ht]
          constructor
          · intro b
            apply appearsBefore_cons _ _ _ _ (by simp)
            apply appearsBefore_cons _ _ _ _ (by simp)
            exact appearsBefore_head _ _ _ (by simp)
          · intro h
            simp at h
        | none =>
          have ht : (restoreAccessToken o).1 =
              [AEv.loadCred false, AEv.serverStart, AEv.obtainRequestToken true,
                AEv.printURL tok, AEv.waitCallback, AEv.obtainAccessToken true,
                AEv.serverClose, AEv.saveCred cred] := by
            simp [restoreAccessToken, obtainAccessTokenFlow, hload, hreq, hacc, hsave]
          rw [ht]
          constructor
          · intro b
            apply appearsBefore_cons _ _ _ _ (by simp)
            apply appearsBefore_cons _ _ _ _ (by simp)
            exact appearsBefore_head _ _ _ (by simp)
          · intro h
            simp at h

def freshAuthOracle : AuthOracle :=
  { load := none, requestToken := some "rt", accessToken := some ⟨"at", "u"⟩,
    saveErr := none }

/-- Witness for `C4_request_before_access`: the all-success handshake, split
at its `obtain_access_token` call. -/
theorem C4_request_before_access_witness :
    AEv.obtainRequestToken true ∈
      [AEv.loadCred false, AEv.serverStart, AEv.obtainRequestToken true,
        AEv.printURL "rt", AEv.waitCallback] :=
  (C4_request_before_access freshAuthOracle).1 true
    [AEv.loadCred false, AEv.serverStart, AEv.obtainRequestToken true,
      AEv.printURL "rt", AEv.waitCallback]
    [AEv.serverClose, AEv.saveCred ⟨"at", "u"⟩] rfl

/-- C7: when the persisted credential loads, the run performs no
authorization-flow call at all — its only event is the successful load, so
neither exchange RPC fires and the credential file is not rewritten — and
the loaded credential is returned. -/
theorem C7_cached_credential_no_network (o : AuthOracle) (a : Auth)
    (h : o.load = some a) :
    restoreAccessToken o = ([AEv.loadCred true], some a) ∧
      (∀ b, AEv.obtainRequestToken b ∉ (restoreAccessToken o).1 ∧
        AEv.obtainAccessToken b ∉ (restoreAccessToken o).1) ∧
      ∀ x, AEv.saveCred x ∉ (restoreAccessToken o).1 := by
  have ht : restoreAccessToken o = ([AEv.loadCred true], some a) := by
    simp [restoreAccessToken, h]
  refine ⟨ht, ?_, ?_⟩ <;> simp [ht]

def cachedAuthOracle : AuthOracle :=
  { load := some ⟨"tok", "user"⟩, requestToken := none, accessToken := none,
    saveErr := none }

/-- Witness for `C7_cached_credential_no_network` at a concrete cached
credential. -/
theorem C7_cached_credential_no_network_witness :
    restoreAccessToken cachedAuthOracle = ([AEv.loadCred true], some ⟨"tok", "user"⟩) ∧
      (∀ b, AEv.obtainRequestToken b ∉ (restoreAccessToken cachedAuthOracle).1 ∧
        AEv.obtainAccessToken b ∉ (restoreAccessToken cachedAuthOracle).1) ∧
      ∀ x, AEv.saveCred x ∉ (restoreAccessToken cachedAuthOracle).1 :=
  C7_cached_credential_no_network cachedAuthOracle ⟨"tok", "user"⟩ rfl

/-! ## `saveJSONToFile`

`saveJSONToFile` does `os.Create(path)` (which truncates an existing file
in place), `defer w.Close()`, then `json.NewEncoder(w).Encode(v)` (which
marshals first and on success writes the text plus a trailing newline;
on a marshal error nothing is written). -/

inductive EncodeRes where
  | ok (s : String)
  | err (msg : String)
deriving DecidableEq

inductive SEv where
  | create (ok : Bool)
  | write (s : String)
  | close
deriving DecidableEq

/-- The successive contents of the credential file that a concurrent reader
can observe during `saveJSONToFile` (`old` = prior content, `none` = no
file): after a successful `os.Create` the file is empty, then on encoder
success it holds the encoding plus newline; on encoder error it stays
truncated. -/
def saveObservable (createOk : Bool) (old : Option String) (enc : EncodeRes) :
    List (Option String) :=
  if createOk then
    match enc with
    | .err _ => [old, some ""]
    | .ok s => [old, some "", some (s ++ "\x0a")]
  else [old]

/-- The resource events of `saveJSONToFile`: the deferred `Close` runs on
every exit path once `os.Create` succeeded. -/
def saveEvents (createOk : Bool) (enc : EncodeRes) : List SEv :=
  if createOk then
    match enc with
    | .err _ => [.create true, .close]
    | .ok s => [.create true, .write (s ++ "\x0a"), .close]
  else [.create false]

/-- Written from the spec's words: the overwrite is atomic from the caller's
perspective when every observable state is the old content or the final
content. -/
def atomicSaveSpec (states : List (Option String)) (old final : Option String) : Prop :=
  ∀ st ∈ states, st = old ∨ st = final

instance (states : List (Option String)) (old final : Option String) :
    Decidable (atomicSaveSpec states old final) :=
  inferInstanceAs (Decidable (∀ st ∈ states, st = old ∨ st = final))

/-- C5, counterexample: overwriting the credential `OLD` with `NEW`
exposes the truncated (empty) file to a concurrent reader between the
`os.Create` and the write — a state that is neither the old nor the new
content — and an encoding error leaves the file truncated for good. -/
theorem C5_counterexample :
    saveObservable true (some "OLD") (.ok "NEW") =
        [some "OLD", some "", some ("NEW" ++ "\x0a")] ∧
      ¬ atomicSaveSpec (saveObservable true (some "OLD") (.ok "NEW")) (some "OLD")
          (some ("NEW" ++ "\x0a")) ∧
      (saveObservable true (some "OLD") (.err "boom")).getLast? = some (some "") := by
  decide

/-- C5, amended: `saveJSONToFile` is not atomic (the destination is
truncated in place before the write), but it does follow scoped-resource
discipline — once the open succeeds, the last event on every exit path
(encoder success or error) is the deferred close — and on success the final
content is the encoding followed by a newline. -/
theorem C5_close_on_every_path (createOk : Bool) (old : Option String)
    (enc : EncodeRes) (h : createOk = true) :
    (saveEvents createOk enc).getLast? = some SEv.close ∧
      ∀ s, enc = .ok s →
        (saveObservable createOk old enc).getLast? = some (some (s ++ "\x0a")) := by
  subst h
  cases enc with
  | ok s => simp [saveEvents, saveObservable]
  | err m =>
    refine ⟨by simp [saveEvents], ?_⟩
    intro s heq
    cases heq

/-- Witness for `C5_close_on_every_path` at a concrete successful save. -/
theorem C5_close_on_every_path_witness :
    (saveEvents true (.ok "NEW")).getLast? = some SEv.close ∧
      ∀ s, EncodeRes.ok "NEW" = EncodeRes.ok s →
        (saveObservable true (some "OLD") (.ok "NEW")).getLast? =
          some (some (s ++ "\x0a")) :=
  C5_close_on_every_path true (some "OLD") (.ok "NEW") rfl

end GoPocket
